import Mathlib

/-
Verification development for the tree collection engine of the Structures
repository (src/src/map/traversable/tree.rs, with collaborators from
src/src/map.rs and src/src/queue.rs).

The embedding specializes the Rust generics `K = V = Int` (any totally
ordered key type exercises the same control flow).  Rust methods that can
panic (indexing a missing key in a `HashMap`/`Map`, `Option::unwrap` on
`None`) are embedded in the `PRes` monad, whose `panic` constructor marks
exactly those aborts; recursion and loops without a structural measure in
the source take an explicit `fuel` argument, and running out of fuel is the
separate `PRes.fuel` outcome, so `PRes.panic` in a theorem always denotes a
genuine panic of the source code.
-/

namespace Structures

/-- Outcome of running a piece of embedded Rust code: a normal result, a
panic (the source's `panic!` or `unwrap` on `None`), or exhaustion of the
artificial fuel of the embedding (never a behavior of the source). -/
inductive PRes (α : Type) where
  | ok : α → PRes α
  | panic : PRes α
  | fuel : PRes α
  deriving DecidableEq, Repr

def PRes.bind {α β : Type} : PRes α → (α → PRes β) → PRes β
  | .ok a, f => f a
  | .panic, _ => .panic
  | .fuel, _ => .fuel

instance : Monad PRes where
  pure := PRes.ok
  bind := PRes.bind

/-- Mirrors `KeyValue<K, V>` from src/src/map.rs with `K = V = Int`. -/
structure KeyValue where
  key : Int
  value : Int
  deriving DecidableEq, Repr

/-- Mirrors `Node<K, V>` from src/src/map/traversable.rs: a key/value pair
plus the list of neighbor links (`links[0]` parent, the rest children). -/
structure Node where
  pair : KeyValue
  links : List (Option Int)
  deriving DecidableEq, Repr

/-- Mirrors `HashMap<K, V>` from src/src/map.rs with `V = Node` (or any
value type).  The backing `std::collections::HashMap` is modelled as an
association list; all operations the tree engine uses (`exists`, `get`,
`insert`, `remove`, indexing) are order-insensitive on unique keys. -/
structure HashMap (α : Type) where
  map : List (Int × α)
  deriving DecidableEq, Repr

namespace HashMap

def empty {α : Type} : HashMap α := ⟨[]⟩

/-- `HashMap::exists`: true if the key is present. -/
def existsKey {α : Type} (m : HashMap α) (key : Int) : Bool :=
  m.map.any (fun p => p.1 == key)

/-- `HashMap::get`: the value at the key, or `none`. -/
def get {α : Type} (m : HashMap α) (key : Int) : Option α :=
  (m.map.find? (fun p => p.1 == key)).map (·.2)

/-- `HashMap::insert`: fails (no mutation) if the key already exists. -/
def insert {α : Type} (m : HashMap α) (pair : Int × α) : HashMap α × Bool :=
  if m.existsKey pair.1 then (m, false) else (⟨m.map ++ [pair]⟩, true)

/-- `HashMap::remove`: drops the key if present. -/
def remove {α : Type} (m : HashMap α) (key : Int) : HashMap α × Bool :=
  if m.existsKey key then (⟨m.map.filter (fun p => !(p.1 == key))⟩, true)
  else (m, false)

/-- `HashMap::index` (`m[key]`): panics when the key is missing. -/
def index {α : Type} (m : HashMap α) (key : Int) : PRes α :=
  match m.get key with
  | some v => .ok v
  | none => .panic

/-- A write through `HashMap::index_mut` (`m[key] = ...` after a successful
lookup); panics when the key is missing, exactly like `index_mut`. -/
def update {α : Type} (m : HashMap α) (key : Int) (f : α → α) : PRes (HashMap α) :=
  if m.existsKey key then
    .ok ⟨m.map.map (fun p => if p.1 == key then (p.1, f p.2) else p)⟩
  else .panic

def len {α : Type} (m : HashMap α) : Nat := m.map.length

def is_empty {α : Type} (m : HashMap α) : Bool := m.map.isEmpty

end HashMap

/-- Mirrors `Map<K, V>` from src/src/map.rs as used by the diagonal
traversal (`Map<isize, Vec<V>>`): an insertion-ordered vector of key/value
pairs.  `into_iter` yields the pairs in insertion order. -/
structure IMap where
  arr : List (Int × List Int)
  deriving DecidableEq, Repr

namespace IMap

/-- `Map::insert`: pushes the pair at the back unless the key exists. -/
def insert (m : IMap) (key : Int) (v : List Int) : IMap :=
  if m.arr.any (fun p => p.1 == key) then m else ⟨m.arr ++ [(key, v)]⟩

/-- `map[key].push(v)` through `Map::index_mut`; panics if the key is
missing. -/
def push (m : IMap) (key : Int) (v : Int) : PRes IMap :=
  if m.arr.any (fun p => p.1 == key) then
    .ok ⟨m.arr.map (fun p => if p.1 == key then (p.1, p.2 ++ [v]) else p)⟩
  else .panic

end IMap

/-- Mirrors `Queue<T>` (src/src/queue.rs): FIFO, `enqueue` pushes back,
`dequeue` pops front.  Modelled directly as a list (front at the head). -/
abbrev Queue (α : Type) := List α

/-- Mirrors `Tree<K, V>` from src/src/map/traversable/tree.rs: a hash map
of non-root nodes plus an optional root node. -/
structure Tree where
  nodes : HashMap Node
  root : Option Node
  deriving DecidableEq, Repr

namespace Tree

/-- `Tree::new`. -/
def new : Tree := ⟨HashMap.empty, none⟩

/-- `Empty::is_empty` for `Tree`. -/
def is_empty (t : Tree) : Bool := t.root.isNone && t.nodes.is_empty

/-- `Len::len` for `Tree`: literally `self.nodes.len() + 1`. -/
def len (t : Tree) : Nat := t.nodes.len + 1

/-- `MapCollection::exists` for `Tree`. -/
def existsKey (t : Tree) (key : Int) : Bool :=
  match t.root with
  | none => false
  | some r => r.pair.key == key || t.nodes.existsKey key

/-- `MapCollection::get` for `Tree`. -/
def get (t : Tree) (key : Int) : Option Int :=
  match t.root with
  | none => none
  | some r =>
    if r.pair.key == key then some r.pair.value
    else (t.nodes.get key).map (·.pair.value)

/-- `MapCollection::insert` for `Tree`: new node becomes the root if there
is none, otherwise a child of the root. -/
def insert (t : Tree) (pair : KeyValue) : Tree × Bool :=
  if t.existsKey pair.key then (t, false)
  else
    match t.root with
    | some r =>
      let r' := { r with links := r.links ++ [some pair.key] }
      let m' := (t.nodes.insert (pair.key, ⟨pair, [some r.pair.key]⟩)).1
      ({ nodes := m', root := some r' }, true)
    | none =>
      ({ t with root := some ⟨pair, [none]⟩ }, true)

/-- `Tree::insert_at`: attach the new node under the node keyed `pos`.
When `pos` is a key that resolves to no node, the source evaluates
`&mut self.nodes[pos]`, whose `IndexMut` panics on a missing key. -/
def insert_at (t : Tree) (pos : Option Int) (pair : KeyValue) : PRes (Tree × Bool) :=
  if t.existsKey pair.key then .ok (t, false)
  else
    match pos with
    | none =>
      match t.root with
      | some r =>
        let r' := { r with links := r.links ++ [some pair.key] }
        let m' := (t.nodes.insert (pair.key, ⟨pair, [some r.pair.key]⟩)).1
        .ok ({ nodes := m', root := some r' }, true)
      | none => .ok ({ t with root := some ⟨pair, [none]⟩ }, true)
    | some p =>
      match t.root with
      | some r =>
        if p == r.pair.key then
          let r' := { r with links := r.links ++ [some pair.key] }
          let m' := (t.nodes.insert (pair.key, ⟨pair, [some r.pair.key]⟩)).1
          .ok ({ nodes := m', root := some r' }, true)
        else do
          let m1 ← t.nodes.update p
            (fun parent => { parent with links := parent.links ++ [some pair.key] })
          let parent ← m1.index p
          let m2 := (m1.insert (pair.key, ⟨pair, [some parent.pair.key]⟩)).1
          .ok ({ nodes := m2, root := some r }, true)
      | none => .ok (t, false)

/-- Drops every child-position link (index ≥ 1) equal to `Some key`,
keeping the parent link at index 0 — the reverse-iteration `links.remove`
loops of `Tree::remove`. -/
def stripChildLink (n : Node) (key : Int) : Node :=
  { n with links :=
      n.links.head?.toList ++ (n.links.drop 1).filter (fun l => !(l == some key)) }

/-- The breadth-first cascade of `Tree::remove`: the source's nested
`while !queue.is_empty { let mut len = queue.len(); while len > 0 { ... } }`
dequeues every element in FIFO order, which this single loop reproduces.
For each dequeued key: if it is the root, clear the whole tree; otherwise
enqueue its children from `self.nodes[node]` (panics when the key has no
node — reached on the first iteration by an absent key), remove the node,
and strip the key from the root's and every node's child links. -/
def removeLoop (t : Tree) : Nat → Queue Int → PRes (Tree × Bool)
  | 0, _ => .fuel
  | _, [] => .ok (t, true)
  | fuel + 1, node :: rest =>
    match t.root with
    | none => .panic
    | some r =>
      if node == r.pair.key then .ok ({ nodes := HashMap.empty, root := none }, true)
      else do
        let nd ← t.nodes.index node
        let children := (nd.links.drop 1).filterMap id
        let m1 := (t.nodes.remove node).1
        let r' := stripChildLink r node
        let m2 : HashMap Node := ⟨m1.map.map (fun p => (p.1, stripChildLink p.2 node))⟩
        removeLoop { nodes := m2, root := some r' } fuel (rest ++ children)

/-- `MapCollection::remove` for `Tree`: `false` on an empty tree, else the
breadth-first cascade starting from `key`. -/
def remove (t : Tree) (key : Int) (fuel : Nat) : PRes (Tree × Bool) :=
  match t.root with
  | none => .ok (t, false)
  | some _ => removeLoop t fuel [key]

/-- `Tree::subtree_rec`: copies `node` (as the new root if none is set yet,
otherwise into `nodes`) and recurses into its child links, which the source
unwraps. -/
def subtree_rec (t : Tree) : Nat → Tree → Int → PRes Tree
  | 0, _, _ => .fuel
  | fuel + 1, sub, node =>
    match t.root with
    | none => .panic
    | some r =>
      if node == r.pair.key then
        let sub' :=
          if sub.root.isNone then { sub with root := some r }
          else { sub with nodes := (sub.nodes.insert (node, r)).1 }
        (r.links.drop 1).foldlM
          (fun acc l =>
            match l with
            | none => .panic
            | some c => subtree_rec t fuel acc c)
          sub'
      else do
        let nd ← t.nodes.index node
        let sub' :=
          if sub.root.isNone then { sub with root := some nd }
          else { sub with nodes := (sub.nodes.insert (node, nd)).1 }
        (nd.links.drop 1).foldlM
          (fun acc l =>
            match l with
            | none => .panic
            | some c => subtree_rec t fuel acc c)
          sub'

/-- `Tree::subtree`: panics when `node` is absent, otherwise copies `node`
and its descendants into a fresh tree via `subtree_rec`. -/
def subtree (t : Tree) (node : Int) (fuel : Nat) : PRes Tree :=
  if !(t.existsKey node) then .panic
  else subtree_rec t fuel new node

/-- The pairwise-maximum accumulation of `get_max_depth`:
`for i { for j > i { d = max(d, vec[i] + vec[j]) } }`. -/
def pairMax (d : Nat) : List Nat → Nat
  | [] => d
  | x :: xs => pairMax (xs.foldl (fun a y => max a (x + y)) d) xs

/-- `Tree::get_max_depth`: returns the node count of the longest downward
path from `node` together with the updated diameter accumulator.  Mirrors
the source exactly, including the capture of `d` *before* the child calls
and the final `*diameter = d`, which discards the children's accumulator
updates. -/
def get_max_depth (t : Tree) : Nat → Int → Nat → PRes (Nat × Nat)
  | 0, _, _ => .fuel
  | fuel + 1, node, diameter =>
    match t.root with
    | none => .ok (0, diameter)
    | some r =>
      if node == r.pair.key then
        if r.links.length == 0 then .ok (0, diameter)
        else do
          let (vec, _) ← (r.links.drop 1).foldlM
            (fun (acc : List Nat × Nat) l =>
              match l with
              | none => .panic
              | some c => do
                let res ← get_max_depth t fuel c acc.2
                pure (acc.1 ++ [res.1], res.2))
            (([] : List Nat), diameter)
          let m := vec.foldl max 0
          .ok (m + 1, pairMax diameter vec)
      else do
        let nd ← t.nodes.index node
        if nd.links.length == 0 then .ok (0, diameter)
        else do
          let (vec, _) ← (nd.links.drop 1).foldlM
            (fun (acc : List Nat × Nat) l =>
              match l with
              | none => .panic
              | some c => do
                let res ← get_max_depth t fuel c acc.2
                pure (acc.1 ++ [res.1], res.2))
            (([] : List Nat), diameter)
          let m := vec.foldl max 0
          .ok (m + 1, pairMax diameter vec)

/-- `TraversableCollection::diameter` for `Tree` (the `f32` result is an
integral cast of the `usize` accumulator, so it is modelled as `Nat`). -/
def diameter (t : Tree) : PRes Nat :=
  match t.root with
  | none => .ok 0
  | some r => do
    let res ← get_max_depth t (t.nodes.len + 2) r.pair.key 0
    .ok res.2

end Tree

/-- Mirrors `BinaryTree<K, V, const BALANCED: bool>`: the const generic
becomes the `balanced` field. -/
structure BinaryTree where
  balanced : Bool
  nodes : HashMap Node
  root : Option Node
  deriving DecidableEq, Repr

/-- `n.links[i]` on a binary node; binary nodes always carry exactly the
three slots `[parent, left, right]`. -/
def Node.link (n : Node) (i : Nat) : Option Int := n.links.getD i none

/-- `n.links[i] = v` on a binary node. -/
def Node.setLink (n : Node) (i : Nat) (v : Option Int) : Node :=
  { n with links := n.links.set i v }

namespace BinaryTree

/-- `BinaryTree::new`. -/
def new (balanced : Bool) : BinaryTree := ⟨balanced, HashMap.empty, none⟩

/-- `Len::len` for `BinaryTree`: literally `self.nodes.len() + 1`. -/
def len (t : BinaryTree) : Nat := t.nodes.len + 1

/-- `Empty::is_empty` for `BinaryTree`. -/
def is_empty (t : BinaryTree) : Bool := t.root.isNone && t.nodes.is_empty

/-- `MapCollection::exists` for `BinaryTree`. -/
def existsKey (t : BinaryTree) (key : Int) : Bool :=
  match t.root with
  | none => false
  | some r => r.pair.key == key || t.nodes.existsKey key

/-- The pervasive lookup pattern `if node == root.key { root } else
{ self.nodes[node] }`; panics (as the source's index does) when the key
resolves to no node, and when the root is absent (`unwrap`). -/
def getNode (t : BinaryTree) (node : Int) : PRes Node :=
  match t.root with
  | none => .panic
  | some r => if node == r.pair.key then .ok r else t.nodes.index node

/-- The parent-chain walk inside `depth_of`: while the current node's
parent link is set and is not the root, step up through `self.nodes`. -/
def depthLoop (t : BinaryTree) : Nat → Node → Int → PRes Int
  | 0, _, _ => .fuel
  | fuel + 1, curr, depth =>
    match t.root with
    | none => .panic
    | some r =>
      match curr.link 0 with
      | none => .ok depth
      | some p =>
        if p == r.pair.key then .ok depth
        else do
          let nd ← t.nodes.index p
          depthLoop t fuel nd (depth + 1)

/-- `TreeCollection::depth_of` for `BinaryTree`: `-1` when absent, else the
number of edges from the root, counted by walking the parent chain. -/
def depth_of (t : BinaryTree) (key : Int) (fuel : Nat) : PRes Int :=
  match t.root with
  | none => .ok (-1)
  | some r =>
    if r.pair.key == key then .ok 0
    else
      match t.nodes.get key with
      | some n => depthLoop t fuel n 1
      | none => .ok (-1)

/-- `TreeCollection::level_of` for `BinaryTree` is `depth_of`. -/
def level_of (t : BinaryTree) (key : Int) (fuel : Nat) : PRes Int :=
  depth_of t key fuel

/-- One breadth-first level step of `height`: children of every queued
node, looked up with the root-vs-nodes pattern, in order. -/
def levelChildren (t : BinaryTree) (queue : List Int) : PRes (List Int) :=
  queue.foldlM
    (fun acc node => do
      let nd ← getNode t node
      pure (acc ++ (nd.links.drop 1).filterMap id))
    []

/-- The level-counting loop of `height`: `height` starts at `-1` and is
incremented once per non-empty level. -/
def heightLoop (t : BinaryTree) : Nat → List Int → Int → PRes Int
  | 0, _, _ => .fuel
  | fuel + 1, queue, h =>
    if queue.isEmpty then .ok h
    else do
      let next ← levelChildren t queue
      heightLoop t fuel next (h + 1)

/-- `TreeCollection::height` for `BinaryTree`: `-1` on an empty tree, else
the breadth-first level count from the root. -/
def height (t : BinaryTree) (fuel : Nat) : PRes Int :=
  match t.root with
  | none => .ok (-1)
  | some r => heightLoop t fuel [r.pair.key] (-1)

/-- The breadth-first loop of `height_from`, which (unlike `height`) looks
children up only through `self.nodes`. -/
def heightFromLoop (t : BinaryTree) : Nat → List Int → Int → PRes Int
  | 0, _, _ => .fuel
  | fuel + 1, queue, h =>
    if queue.isEmpty then .ok h
    else do
      let next ← queue.foldlM
        (fun acc node => do
          let nd ← t.nodes.index node
          pure (acc ++ (nd.links.drop 1).filterMap id))
        []
      heightFromLoop t fuel next (h + 1)

/-- `TreeCollection::height_from` for `BinaryTree`. -/
def height_from (t : BinaryTree) (key : Int) (fuel : Nat) : PRes Int :=
  match t.root with
  | none => .ok (-1)
  | some r =>
    if key == r.pair.key then height t fuel
    else
      match t.nodes.get key with
      | some n => heightFromLoop t fuel [n.pair.key] (-1)
      | none => .ok (-1)

/-- `BinaryTree::balance_factor`: left height minus right height, each via
`height_from`, with `0` for a missing child. -/
def balance_factor (t : BinaryTree) (node : Int) (fuel : Nat) : PRes Int := do
  let n ← getNode t node
  let lheight ←
    match n.link 1 with
    | some l => height_from t l fuel
    | none => pure 0
  let rheight ←
    match n.link 2 with
    | some rk => height_from t rk fuel
    | none => pure 0
  pure (lheight - rheight)

/-- `BinaryTree::rotate_left`.  Root case: the root record and the pivot
entry in `nodes` get the source's four link assignments, in order; no other
link (in particular no parent's child link and no displaced grandchild's
parent link) is touched, and `self.root` keeps pointing at the old node.
Non-root case: the same four assignments through `nodes`, re-reading the
map between writes exactly as the source does. -/
def rotate_left (t : BinaryTree) (node : Int) : PRes BinaryTree :=
  match t.root with
  | none => .panic
  | some r =>
    if node == r.pair.key then
      match r.link 2 with
      | none => .ok t
      | some rk => do
        let rn ← t.nodes.index rk
        let r1 := r.setLink 2 (rn.link 1)
        let rn1 := (rn.setLink 1 (some r.pair.key)).setLink 0 (r1.link 0)
        let r2 := r1.setLink 0 (some rk)
        let m ← t.nodes.update rk (fun _ => rn1)
        .ok { t with root := some r2, nodes := m }
    else do
      let nd ← t.nodes.index node
      match nd.link 2 with
      | none => .ok t
      | some rk => do
        let rn ← t.nodes.index rk
        let m1 ← t.nodes.update node (fun n => n.setLink 2 (rn.link 1))
        let m2 ← m1.update rk (fun n => n.setLink 1 (some node))
        let ndCur ← m2.index node
        let m3 ← m2.update rk (fun n => n.setLink 0 (ndCur.link 0))
        let m4 ← m3.update node (fun n => n.setLink 0 (some rk))
        .ok { t with nodes := m4 }

/-- `BinaryTree::rotate_right`.  The non-root branch keeps the source's
slip verbatim: the guard checks `links[1]` but the pivot key is read from
`links[2]` and unwrapped, so a node with a left child and no right child
panics. -/
def rotate_right (t : BinaryTree) (node : Int) : PRes BinaryTree :=
  match t.root with
  | none => .panic
  | some r =>
    if node == r.pair.key then
      match r.link 1 with
      | none => .ok t
      | some lk => do
        let ln ← t.nodes.index lk
        let r1 := r.setLink 1 (ln.link 2)
        let ln1 := (ln.setLink 2 (some r.pair.key)).setLink 0 (r1.link 0)
        let r2 := r1.setLink 0 (some lk)
        let m ← t.nodes.update lk (fun _ => ln1)
        .ok { t with root := some r2, nodes := m }
    else do
      let nd ← t.nodes.index node
      match nd.link 1 with
      | none => .ok t
      | some _ =>
        match nd.link 2 with
        | none => .panic
        | some lk => do
          let ln ← t.nodes.index lk
          let m1 ← t.nodes.update node (fun n => n.setLink 1 (ln.link 2))
          let m2 ← m1.update lk (fun n => n.setLink 2 (some node))
          let ndCur ← m2.index node
          let m3 ← m2.update lk (fun n => n.setLink 0 (ndCur.link 0))
          let m4 ← m3.update node (fun n => n.setLink 0 (some lk))
          .ok { t with nodes := m4 }

/-- `BinaryTree::balance`: the four rotation cases, keyed to the inserted
or deleted key's position relative to the unbalanced node's child; falls
through unchanged when no case fires. -/
def balance (t : BinaryTree) (node key : Int) (fuel : Nat) : PRes BinaryTree := do
  let nd ← getNode t node
  let bf ← balance_factor t nd.pair.key fuel
  match nd.link 1 with
  | some l1 =>
    if bf > 1 && key < l1 then rotate_right t node
    else if bf > 1 && key > l1 then do
      let t1 ← rotate_left t l1
      let ndCur ← getNode t1 node
      rotate_right t1 ndCur.pair.key
    else
      match nd.link 2 with
      | some l2 =>
        if bf < -1 && key > l2 then rotate_left t node
        else if bf < -1 && key < l2 then do
          let t1 ← rotate_right t l2
          let ndCur ← getNode t1 node
          rotate_left t1 ndCur.pair.key
        else .ok t
      | none => .ok t
  | none =>
    match nd.link 2 with
    | some l2 =>
      if bf < -1 && key > l2 then rotate_left t node
      else if bf < -1 && key < l2 then do
        let t1 ← rotate_right t l2
        let ndCur ← getNode t1 node
        rotate_left t1 ndCur.pair.key
      else .ok t
    | none => .ok t

/-- `BinaryTree::insert_rec`.  The source's separate `nodes.insert` plus
three `links.push` calls that build a fresh leaf are combined into one
insertion of the finished record `[Some(parent), None, None]`. -/
def insert_rec (t : BinaryTree) : Nat → Option Int → KeyValue → PRes BinaryTree
  | 0, _, _ => .fuel
  | fuel + 1, node, pair =>
    match t.root with
    | none => .ok { t with root := some ⟨pair, [none, none, none]⟩ }
    | some r =>
      match node with
      | none => .ok t
      | some n =>
        if n == r.pair.key then
          match r.link 1, r.link 2 with
          | none, none =>
            let r' :=
              if pair.key < r.pair.key then r.setLink 1 (some pair.key)
              else r.setLink 2 (some pair.key)
            let m := (t.nodes.insert (pair.key, ⟨pair, [some r.pair.key, none, none]⟩)).1
            .ok { t with root := some r', nodes := m }
          | some _, none =>
            if pair.key < r.pair.key then do
              let t1 ← insert_rec t fuel (r.link 1) pair
              if t1.balanced then
                match t1.root with
                | none => .panic
                | some r1 =>
                  match r1.link 1 with
                  | none => .panic
                  | some c => balance t1 c pair.key fuel
              else .ok t1
            else
              let r' := r.setLink 2 (some pair.key)
              let m := (t.nodes.insert (pair.key, ⟨pair, [some r.pair.key, none, none]⟩)).1
              .ok { t with root := some r', nodes := m }
          | none, some _ =>
            if pair.key > r.pair.key then do
              let t1 ← insert_rec t fuel (r.link 2) pair
              if t1.balanced then
                match t1.root with
                | none => .panic
                | some r1 =>
                  match r1.link 2 with
                  | none => .panic
                  | some c => balance t1 c pair.key fuel
              else .ok t1
            else
              let r' := r.setLink 1 (some pair.key)
              let m := (t.nodes.insert (pair.key, ⟨pair, [some r.pair.key, none, none]⟩)).1
              .ok { t with root := some r', nodes := m }
          | some _, some _ =>
            if pair.key < r.pair.key then do
              let t1 ← insert_rec t fuel (r.link 1) pair
              if t1.balanced then
                match t1.root with
                | none => .panic
                | some r1 =>
                  match r1.link 1 with
                  | none => .panic
                  | some c => balance t1 c pair.key fuel
              else .ok t1
            else do
              let t1 ← insert_rec t fuel (r.link 2) pair
              if t1.balanced then
                match t1.root with
                | none => .panic
                | some r1 =>
                  match r1.link 2 with
                  | none => .panic
                  | some c => balance t1 c pair.key fuel
              else .ok t1
        else do
          let nd ← t.nodes.index n
          match nd.link 1, nd.link 2 with
          | none, none => do
            let m1 ← t.nodes.update n
              (fun x =>
                if pair.key < nd.pair.key then x.setLink 1 (some pair.key)
                else x.setLink 2 (some pair.key))
            let m2 := (m1.insert (pair.key, ⟨pair, [some nd.pair.key, none, none]⟩)).1
            .ok { t with nodes := m2 }
          | some _, none =>
            if pair.key < nd.pair.key then do
              let t1 ← insert_rec t fuel (nd.link 1) pair
              if t1.balanced then do
                let ndCur ← t1.nodes.index n
                match ndCur.link 1 with
                | none => .panic
                | some c => balance t1 c pair.key fuel
              else .ok t1
            else do
              let m1 ← t.nodes.update n (fun x => x.setLink 2 (some pair.key))
              let m2 := (m1.insert (pair.key, ⟨pair, [some nd.pair.key, none, none]⟩)).1
              .ok { t with nodes := m2 }
          | none, some _ =>
            if pair.key > nd.pair.key then do
              let t1 ← insert_rec t fuel (nd.link 2) pair
              if t1.balanced then do
                let ndCur ← t1.nodes.index n
                match ndCur.link 2 with
                | none => .panic
                | some c => balance t1 c pair.key fuel
              else .ok t1
            else do
              let m1 ← t.nodes.update n (fun x => x.setLink 1 (some pair.key))
              let m2 := (m1.insert (pair.key, ⟨pair, [some nd.pair.key, none, none]⟩)).1
              .ok { t with nodes := m2 }
          | some _, some _ =>
            if pair.key < nd.pair.key then do
              let t1 ← insert_rec t fuel (nd.link 1) pair
              if t1.balanced then do
                let ndCur ← t1.nodes.index n
                match ndCur.link 1 with
                | none => .panic
                | some c => balance t1 c pair.key fuel
              else .ok t1
            else do
              let t1 ← insert_rec t fuel (nd.link 2) pair
              if t1.balanced then do
                let ndCur ← t1.nodes.index n
                match ndCur.link 2 with
                | none => .panic
                | some c => balance t1 c pair.key fuel
              else .ok t1

/-- `MapCollection::insert` for `BinaryTree`: `false` when the key exists,
else `insert_rec` from the root. -/
def insert (t : BinaryTree) (pair : KeyValue) (fuel : Nat) : PRes (BinaryTree × Bool) :=
  if t.existsKey pair.key then .ok (t, false)
  else do
    let t1 ←
      match t.root with
      | some r => insert_rec t fuel (some r.pair.key) pair
      | none => insert_rec t fuel none pair
    .ok (t1, true)

/-- The common tail of `remove_rec`: balance when `BALANCED`, then return
the current node's key. -/
def balanceTail (t : BinaryTree) (n : Node) (key : Int) (fuel : Nat) :
    PRes (BinaryTree × Option Int) :=
  if t.balanced then do
    let t1 ← balance t n.pair.key key fuel
    .ok (t1, some n.pair.key)
  else .ok (t, some n.pair.key)

/-- The `while temp.links[1].is_some()` walk of `remove_rec` that finds the
leftmost node of the right subtree. -/
def leftmostLoop (t : BinaryTree) : Nat → Node → PRes Node
  | 0, _ => .fuel
  | fuel + 1, temp =>
    match temp.link 1 with
    | none => .ok temp
    | some l => do
      let nd ← t.nodes.index l
      leftmostLoop t fuel nd

/-- `BinaryTree::remove_rec`, kept with the source's slips: the current
node `n` is fetched as `self.nodes[key]` (by the key being deleted) when
the walk is not at the root; the recursive results are written only into
the local copy of `n`; the two-children case unwraps `n.links[0]` (so a
root with two children panics) and updates only the new node's left
child's parent link. -/
def remove_rec (t : BinaryTree) : Nat → Option Int → Int → PRes (BinaryTree × Option Int)
  | 0, _, _ => .fuel
  | fuel + 1, node, key =>
    match node with
    | none => .ok (t, none)
    | some nodek =>
      match t.root with
      | none => .panic
      | some r => do
        let n ← if nodek == r.pair.key then pure r else t.nodes.index key
        let k ← if key == r.pair.key then pure r else t.nodes.index key
        if k.pair.key < n.pair.key then do
          let (t1, res) ← remove_rec t fuel (n.link 1) key
          balanceTail t1 (n.setLink 1 res) key fuel
        else if k.pair.key > n.pair.key then do
          let (t1, res) ← remove_rec t fuel (n.link 2) key
          balanceTail t1 (n.setLink 2 res) key fuel
        else
          if (n.link 1).isNone || (n.link 2).isNone then do
            let temp ←
              match n.link 1 with
              | some l => do
                let x ← t.nodes.index l
                pure (some x)
              | none =>
                match n.link 2 with
                | some rr => do
                  let x ← t.nodes.index rr
                  pure (some x)
                | none => pure (none : Option Node)
            match temp with
            | none =>
              if n.pair.key == r.pair.key then .ok ({ t with root := none }, none)
              else .ok ({ t with nodes := (t.nodes.remove n.pair.key).1 }, none)
            | some tn => do
              let t2 ←
                match n.link 0 with
                | none => pure t
                | some pk =>
                  if pk == r.pair.key then
                    let r' :=
                      if (r.link 1).isSome && r.link 1 == some n.pair.key then
                        r.setLink 1 (some tn.pair.key)
                      else if (r.link 2).isSome && r.link 2 == some n.pair.key then
                        r.setLink 2 (some tn.pair.key)
                      else r
                    pure { t with root := some r' }
                  else do
                    let pn ← t.nodes.index pk
                    if (pn.link 1).isSome && pn.link 1 == some n.pair.key then do
                      let m ← t.nodes.update pk (fun x => x.setLink 1 (some tn.pair.key))
                      pure { t with nodes := m }
                    else if (pn.link 2).isSome && pn.link 2 == some n.pair.key then do
                      let m ← t.nodes.update pk (fun x => x.setLink 2 (some tn.pair.key))
                      pure { t with nodes := m }
                    else pure t
              let t3 := { t2 with nodes := (t2.nodes.remove n.pair.key).1 }
              balanceTail t3 n key fuel
          else do
            let rk ← match n.link 2 with | some x => pure x | none => .panic
            let start ← t.nodes.index rk
            let temp ← leftmostLoop t fuel start
            let n1 := if temp.pair.key == rk then n.setLink 2 none else n
            let tkey := temp.pair.key
            let tdata := temp.pair.value
            let pk ← match n1.link 0 with | some x => pure x | none => .panic
            let t2 ←
              if pk == r.pair.key then
                let r' :=
                  if (r.link 1).isSome && r.link 1 == some n1.pair.key then
                    r.setLink 1 (some tkey)
                  else if (r.link 2).isSome && r.link 2 == some n1.pair.key then
                    r.setLink 2 (some tkey)
                  else r
                pure { t with root := some r' }
              else do
                let pn ← t.nodes.index pk
                if (pn.link 1).isSome && pn.link 1 == some n1.pair.key then do
                  let m ← t.nodes.update pk (fun x => x.setLink 1 (some tkey))
                  pure { t with nodes := m }
                else if (pn.link 2).isSome && pn.link 2 == some n1.pair.key then do
                  let m ← t.nodes.update pk (fun x => x.setLink 2 (some tkey))
                  pure { t with nodes := m }
                else pure t
            let newNode := { n1 with pair := ⟨tkey, tdata⟩ }
            let m1 := (t2.nodes.remove tkey).1
            let m2 := (m1.remove n1.pair.key).1
            let m3 := (m2.insert (tkey, newNode)).1
            let t3 := { t2 with nodes := m3 }
            let t4 ←
              match newNode.link 1 with
              | some l => do
                let m ← t3.nodes.update l (fun x => x.setLink 0 (some newNode.pair.key))
                pure { t3 with nodes := m }
              | none => pure t3
            balanceTail t4 newNode key fuel

/-- `BinaryTree::get_max_depth`: like the generic version but with an
`is_some` guard in the child loop; shares its structure, including the
capture of `d` before the child calls and the final overwrite of the
accumulator. -/
def get_max_depth (t : BinaryTree) : Nat → Int → Nat → PRes (Nat × Nat)
  | 0, _, _ => .fuel
  | fuel + 1, node, diameter =>
    match t.root with
    | none => .ok (0, diameter)
    | some r =>
      if node == r.pair.key then
        if r.links.length == 0 then .ok (0, diameter)
        else do
          let (vec, _) ← (r.links.drop 1).foldlM
            (fun (acc : List Nat × Nat) l =>
              match l with
              | none => pure acc
              | some c => do
                let res ← get_max_depth t fuel c acc.2
                pure (acc.1 ++ [res.1], res.2))
            (([] : List Nat), diameter)
          let m := vec.foldl max 0
          .ok (m + 1, Tree.pairMax diameter vec)
      else do
        let nd ← t.nodes.index node
        if nd.links.length == 0 then .ok (0, diameter)
        else do
          let (vec, _) ← (nd.links.drop 1).foldlM
            (fun (acc : List Nat × Nat) l =>
              match l with
              | none => pure acc
              | some c => do
                let res ← get_max_depth t fuel c acc.2
                pure (acc.1 ++ [res.1], res.2))
            (([] : List Nat), diameter)
          let m := vec.foldl max 0
          .ok (m + 1, Tree.pairMax diameter vec)

/-- `TraversableCollection::diameter` for `BinaryTree` (integral `f32`
modelled as `Nat`). -/
def diameter (t : BinaryTree) : PRes Nat :=
  match t.root with
  | none => .ok 0
  | some r => do
    let res ← get_max_depth t (t.nodes.len + 2) r.pair.key 0
    .ok res.2

/-- `MapCollection::remove` for `BinaryTree`: `false` only on an empty
tree; any other call runs `remove_rec` and returns `true`. -/
def remove (t : BinaryTree) (key : Int) (fuel : Nat) : PRes (BinaryTree × Bool) :=
  match t.root with
  | none => .ok (t, false)
  | some r => do
    let (t1, _) ← remove_rec t fuel (some r.pair.key) key
    .ok (t1, true)

/-- Folds `insert` over a key list (value = key), starting from the empty
tree; the boolean is the conjunction of all returned results. -/
def insertSeq (balanced : Bool) (keys : List Int) (fuel : Nat) : PRes (BinaryTree × Bool) :=
  keys.foldlM
    (fun (acc : BinaryTree × Bool) k => do
      let (t1, r1) ← insert acc.1 ⟨k, k⟩ fuel
      pure (t1, acc.2 && r1))
    (new balanced, true)

end BinaryTree

/-
`BinaryTreeTraverser` precomputes, for the selected mode, an ordered buffer
of node values (a `DoublyLinkedList<V>` filled by `append`, modelled as a
list built left to right).  Each mode function below returns the buffer the
traverser would store; the first argument is the traverser's tree snapshot.
-/
namespace BinaryTreeTraverser

open BinaryTree

/-- `BinaryTreeTraverser::inorder_rec`: left subtree, self, right subtree. -/
def inorder_rec (t : BinaryTree) : Nat → Int → PRes (List Int)
  | 0, _ => .fuel
  | fuel + 1, node => do
    let curr ← getNode t node
    let left ←
      match curr.link 1 with
      | some l => inorder_rec t fuel l
      | none => pure []
    let right ←
      match curr.link 2 with
      | some rr => inorder_rec t fuel rr
      | none => pure []
    pure (left ++ [curr.pair.value] ++ right)

/-- `BinaryTreeTraverser::preorder_rec`: self, then every present child
link in index order. -/
def preorder_rec (t : BinaryTree) : Nat → Int → PRes (List Int)
  | 0, _ => .fuel
  | fuel + 1, node => do
    let curr ← getNode t node
    let rest ← ((curr.links.drop 1).filterMap id).foldlM
      (fun acc c => do
        let sub ← preorder_rec t fuel c
        pure (acc ++ sub))
      ([] : List Int)
    pure (curr.pair.value :: rest)

/-- `BinaryTreeTraverser::postorder_rec`: every present child link in index
order, then self. -/
def postorder_rec (t : BinaryTree) : Nat → Int → PRes (List Int)
  | 0, _ => .fuel
  | fuel + 1, node => do
    let curr ← getNode t node
    let rest ← ((curr.links.drop 1).filterMap id).foldlM
      (fun acc c => do
        let sub ← postorder_rec t fuel c
        pure (acc ++ sub))
      ([] : List Int)
    pure (rest ++ [curr.pair.value])

/-- `BinaryTreeTraverser::level_order_trav`: emit the node at `level = 0`,
else recurse into every present child with `level - 1`. -/
def level_order_trav (t : BinaryTree) : Nat → Int → Int → PRes (List Int)
  | 0, _, _ => .fuel
  | fuel + 1, node, level => do
    let curr ← getNode t node
    if level == 0 then pure [curr.pair.value]
    else
      ((curr.links.drop 1).filterMap id).foldlM
        (fun acc c => do
          let sub ← level_order_trav t fuel c (level - 1)
          pure (acc ++ sub))
        ([] : List Int)

/-- `BinaryTreeTraverser::level_order_rec`: one `level_order_trav` pass per
level `0 .. self.tree.height() + 1`. -/
def level_order_rec (t : BinaryTree) (fuel : Nat) (node : Int) : PRes (List Int) := do
  let h ← height t fuel
  (List.range (h + 1).toNat).foldlM
    (fun acc i => do
      let sub ← level_order_trav t fuel node (Int.ofNat i)
      pure (acc ++ sub))
    ([] : List Int)

/-- `BinaryTreeTraverser::boundary_leaves`: in-order walk emitting exactly
the leaves. -/
def boundary_leaves (t : BinaryTree) : Nat → Int → PRes (List Int)
  | 0, _ => .fuel
  | fuel + 1, node => do
    let curr ← getNode t node
    let left ←
      match curr.link 1 with
      | some l => boundary_leaves t fuel l
      | none => pure []
    let self :=
      if (curr.link 1).isNone && (curr.link 2).isNone then [curr.pair.value] else []
    let right ←
      match curr.link 2 with
      | some rr => boundary_leaves t fuel rr
      | none => pure []
    pure (left ++ self ++ right)

/-- `BinaryTreeTraverser::boundary_left`: emit every non-leaf along the
spine that prefers the left child (falling back to the right child). -/
def boundary_left (t : BinaryTree) : Nat → Int → PRes (List Int)
  | 0, _ => .fuel
  | fuel + 1, node => do
    let curr ← getNode t node
    if (curr.link 1).isSome || (curr.link 2).isSome then do
      let rest ←
        match curr.link 1 with
        | some l => boundary_left t fuel l
        | none =>
          match curr.link 2 with
          | some rr => boundary_left t fuel rr
          | none => .panic
      pure (curr.pair.value :: rest)
    else pure []

/-- `BinaryTreeTraverser::boundary_right`: the source recurses into
`boundary_left` (not itself) before emitting the current non-leaf node —
kept verbatim. -/
def boundary_right (t : BinaryTree) (fuel : Nat) (node : Int) : PRes (List Int) := do
  let curr ← getNode t node
  if (curr.link 1).isSome || (curr.link 2).isSome then do
    let rest ←
      match curr.link 2 with
      | some rr => boundary_left t fuel rr
      | none =>
        match curr.link 1 with
        | some l => boundary_left t fuel l
        | none => .panic
    pure (rest ++ [curr.pair.value])
  else pure []

/-- `BinaryTreeTraverser::boundary`: root value, then the left spine and
the left subtree's leaves, then the right subtree's leaves and the right
spine. -/
def boundary (t : BinaryTree) (fuel : Nat) : PRes (List Int) :=
  match t.root with
  | none => .ok []
  | some r => do
    let leftPart ←
      match r.link 1 with
      | some l => do
        let a ← boundary_left t fuel l
        let b ← boundary_leaves t fuel l
        pure (a ++ b)
      | none => pure []
    let rightPart ←
      match r.link 2 with
      | some rr => do
        let a ← boundary_leaves t fuel rr
        let b ← boundary_right t fuel rr
        pure (a ++ b)
      | none => pure []
    pure (r.pair.value :: (leftPart ++ rightPart))

/-- The queue loop of `BinaryTreeTraverser::diagonal_iter`: each dequeued
`(key, tag)` goes into the `Map` bucket `tag`; the left child is enqueued
with tag `level_of(left) + 1` and the right child with `level_of(right)`
(the source computes tags from the child's depth, not from the parent's
tag). -/
def diagLoop (t : BinaryTree) : Nat → List (Int × Int) → IMap → PRes IMap
  | 0, _, _ => .fuel
  | _ + 1, [], m => .ok m
  | fuel + 1, (k, tag) :: rest, m => do
    let curr ← getNode t k
    let m1 := m.insert tag []
    let m2 ← m1.push tag curr.pair.value
    let q1 ←
      match curr.link 1 with
      | some l => do
        let d ← level_of t l fuel
        pure [(l, d + 1)]
      | none => pure ([] : List (Int × Int))
    let q2 ←
      match curr.link 2 with
      | some rr => do
        let d ← level_of t rr fuel
        pure [(rr, d)]
      | none => pure ([] : List (Int × Int))
    diagLoop t fuel (rest ++ q1 ++ q2) m2

/-- `BinaryTreeTraverser::diagonal_iter`: run the queue loop from `node`,
then flatten the `Map`'s buckets in insertion order (`Map::into_iter`
yields its backing vector in insertion order, not sorted by key). -/
def diagonal_iter (t : BinaryTree) (fuel : Nat) (node : Int) : PRes (List Int) := do
  let curr ← getNode t node
  let d0 ← level_of t curr.pair.key fuel
  let m ← diagLoop t fuel [(curr.pair.key, d0)] ⟨[]⟩
  pure (m.arr.foldl (fun acc p => acc ++ p.2) [])

/-- The buffer computed by the `inorder` mode switch. -/
def inorder (t : BinaryTree) (fuel : Nat) : PRes (List Int) :=
  match t.root with
  | none => .ok []
  | some r => inorder_rec t fuel r.pair.key

/-- The buffer computed by the `preorder` mode switch. -/
def preorder (t : BinaryTree) (fuel : Nat) : PRes (List Int) :=
  match t.root with
  | none => .ok []
  | some r => preorder_rec t fuel r.pair.key

/-- The buffer computed by the `postorder` mode switch. -/
def postorder (t : BinaryTree) (fuel : Nat) : PRes (List Int) :=
  match t.root with
  | none => .ok []
  | some r => postorder_rec t fuel r.pair.key

/-- The buffer computed by the `level_order` mode switch. -/
def level_order (t : BinaryTree) (fuel : Nat) : PRes (List Int) :=
  match t.root with
  | none => .ok []
  | some r => level_order_rec t fuel r.pair.key

/-- The buffer computed by the `diagonal` mode switch. -/
def diagonal (t : BinaryTree) (fuel : Nat) : PRes (List Int) :=
  match t.root with
  | none => .ok []
  | some r => diagonal_iter t fuel r.pair.key

end BinaryTreeTraverser

/-
Specification-side definitions, formalizing the vocabulary of the claims
(reachability through child links, subtree height, the BST ordering
invariant, the AVL balance invariant, diagonal indices).  These are stated
over the embedded tree representation but follow the claims' words, not
the source.
-/

/-- Keys reachable from the link `start` by following child links
(`links[1]`, `links[2]`), cut off by `fuel` (the claims' trees are finite
and acyclic, so any `fuel` above the node count is exact there; on
corrupted link structures a larger `fuel` only reveals more of the cycle). -/
def reachableKeys (t : BinaryTree) : Nat → Option Int → List Int
  | 0, _ => []
  | _, none => []
  | fuel + 1, some k =>
    let nd? :=
      match t.root with
      | some r => if r.pair.key == k then some r else t.nodes.get k
      | none => t.nodes.get k
    match nd? with
    | none => [k]
    | some nd =>
      k :: (reachableKeys t fuel (nd.link 1) ++ reachableKeys t fuel (nd.link 2))

/-- All node records of the tree: the root plus the `nodes` entries. -/
def allNodes (t : BinaryTree) : List Node :=
  t.root.toList ++ t.nodes.map.map (·.2)

/-- The BST ordering invariant exactly as the claim states it: for every
node `n`, every key reachable through `n`'s left child link is `< n.key`
and every key reachable through `n`'s right child link is `> n.key`. -/
def bstOrdered (t : BinaryTree) (fuel : Nat) : Bool :=
  (allNodes t).all fun n =>
    (reachableKeys t fuel (n.link 1)).all (fun k => k < n.pair.key) &&
    (reachableKeys t fuel (n.link 2)).all (fun k => k > n.pair.key)

/-- Height of the subtree hanging from a child link, in nodes (`0` for an
absent child), following child links with a `fuel` cutoff. -/
def subtreeHeight (t : BinaryTree) : Nat → Option Int → Nat
  | 0, _ => 0
  | _, none => 0
  | fuel + 1, some k =>
    let nd? :=
      match t.root with
      | some r => if r.pair.key == k then some r else t.nodes.get k
      | none => t.nodes.get k
    match nd? with
    | none => 1
    | some nd =>
      1 + max (subtreeHeight t fuel (nd.link 1)) (subtreeHeight t fuel (nd.link 2))

/-- The AVL balance invariant of the claim: every node's left and right
subtree heights differ by at most one. -/
def avlBalanced (t : BinaryTree) (fuel : Nat) : Bool :=
  (allNodes t).all fun n =>
    (subtreeHeight t fuel (n.link 1) : Int) - subtreeHeight t fuel (n.link 2) ≤ 1 &&
    (subtreeHeight t fuel (n.link 2) : Int) - subtreeHeight t fuel (n.link 1) ≤ 1

/-- The node record `get_max_depth` dereferences for a key: the root when
the key matches the root's, otherwise the `nodes` entry. -/
def lookupT (t : Tree) (k : Int) : Option Node :=
  match t.root with
  | none => none
  | some r => if k == r.pair.key then some r else t.nodes.get k

/-- Same lookup for a binary tree. -/
def lookupB (t : BinaryTree) (k : Int) : Option Node :=
  match t.root with
  | none => none
  | some r => if k == r.pair.key then some r else t.nodes.get k

/-- The tree hangs as a single downward chain of `m + 1` nodes from key
`k`: each node carries its parent slot plus exactly one child link, the
last node only its parent slot.  This is the link shape `insert` /
`insert_at` build for a chain. -/
def isChainFrom (t : Tree) : Nat → Int → Bool
  | 0, k =>
    ((lookupT t k).map (fun nd => nd.links.length == 1)).getD false
  | m + 1, k =>
    ((lookupT t k).map (fun nd =>
      nd.links.length == 2 &&
        (((nd.links.getD 1 none).map (fun k2 => isChainFrom t m k2)).getD false))).getD
      false

/-- Binary variant: from key `k` downward every node has exactly one
present child link (left or right), the last none. -/
def isChainFromB (t : BinaryTree) : Nat → Int → Bool
  | 0, k =>
    ((lookupB t k).map (fun nd =>
      decide (nd.links.length ≠ 0) && ((nd.links.drop 1).filterMap id == []))).getD false
  | m + 1, k =>
    ((lookupB t k).map (fun nd =>
      decide (((nd.links.drop 1).filterMap id).length = 1) &&
        isChainFromB t m (((nd.links.drop 1).filterMap id).headD 0))).getD false

/-- Extracts a normal result, with a default for panic or fuel-out. -/
def PRes.getD {α : Type} (x : PRes α) (d : α) : α :=
  match x with
  | .ok a => a
  | _ => d

/-
Concrete trees used by the theorems below, built through the embedded
operations themselves so that each is a state reachable by the public API.
-/

/-- A generic tree holding only the root node `1`. -/
def tRoot1 : Tree := (Tree.insert Tree.new ⟨1, 1⟩).1

/-- A generic tree with root `1` and one child `2`. -/
def tPair : Tree := (Tree.insert tRoot1 ⟨2, 2⟩).1

/-- A generic tree that is the chain `0 → 1 → 2`, built with `insert_at`. -/
def tChain3 : Tree :=
  ((do
    let a ← Tree.insert_at (Tree.insert Tree.new ⟨0, 0⟩).1 (some 0) ⟨1, 1⟩
    Tree.insert_at a.1 (some 1) ⟨2, 2⟩ : PRes (Tree × Bool)).getD (Tree.new, false)).1

/-- An unbalanced binary tree holding only the root node `1`. -/
def bRoot1 : BinaryTree :=
  ((BinaryTree.insertSeq false [1] 10).getD (BinaryTree.new false, false)).1

/-- An unbalanced binary tree that is the left chain `3 → 2 → 1`. -/
def bChain3 : BinaryTree :=
  ((BinaryTree.insertSeq false [3, 2, 1] 20).getD (BinaryTree.new false, false)).1

/-- Inserting `30, 10, 5, 20, 15` into an unbalanced binary search tree and
then removing `10` (a node with two children whose in-order successor `15`
is not its right child). -/
def bC1run : PRes (BinaryTree × Bool) := do
  let p ← BinaryTree.insertSeq false [30, 10, 5, 20, 15] 30
  BinaryTree.remove p.1 10 30

/-- The tree state `bC1run` ends in. -/
def tC1 : BinaryTree := (bC1run.getD (BinaryTree.new false, false)).1

/-- Inserting `4, 3, 2, 1` into a `Balanced = true` binary search tree. -/
def bC2run : PRes (BinaryTree × Bool) := BinaryTree.insertSeq true [4, 3, 2, 1] 30

/-- The tree state `bC2run` ends in. -/
def tC2 : BinaryTree := (bC2run.getD (BinaryTree.new true, false)).1

/-- The first four inserts of the `C4` scenario, which complete without
rotating. -/
def tC4pre : BinaryTree :=
  ((BinaryTree.insertSeq true [20, 10, 5, 2] 40).getD (BinaryTree.new true, false)).1

/-- The 6-node binary tree from inserting `8, 4, 12, 2, 6, 5`: root `8`
with children `4` and `12`; `4` with children `2` and `6`; `6` with left
child `5`. -/
def tC8 : BinaryTree :=
  ((BinaryTree.insertSeq false [8, 4, 12, 2, 6, 5] 30).getD (BinaryTree.new false, false)).1

/-- The 4-node binary tree from inserting `1, 0, 3, 2`: root `1` with
children `0` and `3`; `3` with left child `2`. -/
def tC9 : BinaryTree :=
  ((BinaryTree.insertSeq false [1, 0, 3, 2] 30).getD (BinaryTree.new false, false)).1

/-
Theorems.  General lemmas about the embedding first, then one theorem per
claim (with its counterexample or witness where required).
-/

theorem pres_ok_bind {α β : Type} (a : α) (f : α → PRes β) : (PRes.ok a >>= f) = f a := rfl

theorem pres_pure_bind {α β : Type} (a : α) (f : α → PRes β) :
    ((pure a : PRes α) >>= f) = f a := rfl

theorem pres_panic_bind {α β : Type} (f : α → PRes β) :
    ((PRes.panic : PRes α) >>= f) = .panic := rfl

theorem pres_fuel_bind {α β : Type} (f : α → PRes β) :
    ((PRes.fuel : PRes α) >>= f) = .fuel := rfl

/-- A child loop of `BinaryTree::get_max_depth` over links holding no
present child is the identity on the accumulator. -/
theorem bgmd_fold_nil (t : BinaryTree) (fuel : Nat) :
    ∀ (l : List (Option Int)) (acc : List Nat × Nat), l.filterMap id = [] →
    List.foldlM
      (fun (acc : List Nat × Nat) l =>
        match l with
        | none => pure acc
        | some c => do
          let res ← BinaryTree.get_max_depth t fuel c acc.2
          pure (acc.1 ++ [res.1], res.2))
      acc l = pure acc := by
  intro l
  induction l with
  | nil => intro acc _; rfl
  | cons x xs ih =>
    intro acc h
    match x with
    | none =>
      simp only [List.filterMap_cons_none, id] at h
      simp only [List.foldlM_cons]
      rw [pres_pure_bind]
      exact ih acc h
    | some c =>
      simp [List.filterMap_cons_some] at h

/-- A child loop of `BinaryTree::get_max_depth` over links holding exactly
one present child processes exactly that child. -/
theorem bgmd_fold_one (t : BinaryTree) (fuel : Nat) :
    ∀ (l : List (Option Int)) (acc : List Nat × Nat) (c : Int), l.filterMap id = [c] →
    List.foldlM
      (fun (acc : List Nat × Nat) l =>
        match l with
        | none => pure acc
        | some c => do
          let res ← BinaryTree.get_max_depth t fuel c acc.2
          pure (acc.1 ++ [res.1], res.2))
      acc l =
      (do
        let res ← BinaryTree.get_max_depth t fuel c acc.2
        pure (acc.1 ++ [res.1], res.2)) := by
  intro l
  induction l with
  | nil => intro acc c h; simp at h
  | cons x xs ih =>
    intro acc c h
    match x with
    | none =>
      simp only [List.filterMap_cons_none, id] at h
      simp only [List.foldlM_cons]
      rw [pres_pure_bind]
      exact ih acc c h
    | some d =>
      simp only [List.filterMap_cons, id, List.cons.injEq] at h
      obtain ⟨hdc, hxs⟩ := h
      subst hdc
      simp only [List.foldlM_cons]
      cases hgmd : BinaryTree.get_max_depth t fuel d acc.2 with
      | ok res =>
        simp only [hgmd, pres_ok_bind, pres_pure_bind]
        exact bgmd_fold_nil t fuel xs _ hxs
      | panic => simp only [hgmd, pres_panic_bind]
      | fuel => simp only [hgmd, pres_fuel_bind]

/-- `Tree::get_max_depth` on a downward chain of `m + 1` nodes returns
depth `m + 1` and leaves the diameter accumulator unchanged: with a single
child at every node the pairwise loop never runs. -/
theorem chain_gmd (t : Tree) : ∀ (m fuel : Nat) (k : Int) (dia : Nat),
    isChainFrom t m k = true → m + 1 ≤ fuel →
    Tree.get_max_depth t fuel k dia = .ok (m + 1, dia) := by
  intro m
  induction m with
  | zero =>
    intro fuel k dia hch hf
    match fuel, hf with
    | fuel + 1, _ =>
      simp only [isChainFrom] at hch
      match hr : t.root with
      | none => simp [lookupT, hr] at hch
      | some r =>
        simp only [lookupT, hr] at hch
        simp only [Tree.get_max_depth]
        rw [hr]
        dsimp only
        by_cases hk : (k == r.pair.key) = true
        · simp only [hk, if_true] at hch ⊢
          simp only [Option.map_some', Option.getD_some, beq_iff_eq] at hch
          obtain ⟨a, ha⟩ := List.length_eq_one.mp hch
          rw [ha]
          simp [Tree.pairMax, pres_pure_bind]
        · rw [Bool.not_eq_true] at hk
          simp only [hk, Bool.false_eq_true, if_false] at hch ⊢
          match hg : t.nodes.get k with
          | none => rw [hg] at hch; simp at hch
          | some nd =>
            rw [hg] at hch
            simp only [Option.map_some', Option.getD_some, beq_iff_eq] at hch
            have hidx : t.nodes.index k = .ok nd := by
              simp [HashMap.index, hg]
            rw [hidx, pres_ok_bind]
            obtain ⟨a, ha⟩ := List.length_eq_one.mp hch
            rw [ha]
            simp [Tree.pairMax, pres_pure_bind]
  | succ m ih =>
    intro fuel k dia hch hf
    match fuel, hf with
    | fuel + 1, hf =>
      have hf2 : m + 1 ≤ fuel := by omega
      simp only [isChainFrom] at hch
      match hr : t.root with
      | none => simp [lookupT, hr] at hch
      | some r =>
        simp only [lookupT, hr] at hch
        simp only [Tree.get_max_depth]
        rw [hr]
        dsimp only
        by_cases hk : (k == r.pair.key) = true
        · simp only [hk, if_true] at hch ⊢
          simp only [Option.map_some', Option.getD_some, Bool.and_eq_true, beq_iff_eq] at hch
          obtain ⟨hlen, hrest⟩ := hch
          obtain ⟨a, b, hab⟩ := List.length_eq_two.mp hlen
          rw [hab] at hrest
          match b, hrest with
          | some k2, hrest =>
            simp only [List.getD, List.getElem?_cons_succ, List.getElem?_cons_zero,
              Option.getD_some, Option.map_some', Option.getD_some] at hrest
            have hrec := ih fuel k2 dia hrest hf2
            rw [hab]
            simp [hrec, Tree.pairMax, pres_ok_bind, pres_pure_bind]
          | none, hrest =>
            simp [List.getD] at hrest
        · rw [Bool.not_eq_true] at hk
          simp only [hk, Bool.false_eq_true, if_false] at hch ⊢
          match hg : t.nodes.get k with
          | none => rw [hg] at hch; simp at hch
          | some nd =>
            rw [hg] at hch
            simp only [Option.map_some', Option.getD_some, Bool.and_eq_true, beq_iff_eq] at hch
            obtain ⟨hlen, hrest⟩ := hch
            obtain ⟨a, b, hab⟩ := List.length_eq_two.mp hlen
            rw [hab] at hrest
            have hidx : t.nodes.index k = .ok nd := by
              simp [HashMap.index, hg]
            rw [hidx, pres_ok_bind]
            match b, hrest with
            | some k2, hrest =>
              simp only [List.getD, List.getElem?_cons_succ, List.getElem?_cons_zero,
                Option.getD_some, Option.map_some', Option.getD_some] at hrest
              have hrec := ih fuel k2 dia hrest hf2
              rw [hab]
              simp [hrec, Tree.pairMax, pres_ok_bind, pres_pure_bind]
            | none, hrest =>
              simp [List.getD] at hrest

/-- `BinaryTree::get_max_depth` on a downward chain likewise returns depth
`m + 1` with the diameter accumulator unchanged. -/
theorem chain_gmdB (t : BinaryTree) : ∀ (m fuel : Nat) (k : Int) (dia : Nat),
    isChainFromB t m k = true → m + 1 ≤ fuel →
    BinaryTree.get_max_depth t fuel k dia = .ok (m + 1, dia) := by
  intro m
  induction m with
  | zero =>
    intro fuel k dia hch hf
    match fuel, hf with
    | fuel + 1, _ =>
      simp only [isChainFromB] at hch
      match hr : t.root with
      | none => simp [lookupB, hr] at hch
      | some r =>
        simp only [lookupB, hr] at hch
        simp only [BinaryTree.get_max_depth]
        rw [hr]
        dsimp only
        by_cases hk : (k == r.pair.key) = true
        · simp only [hk, if_true] at hch ⊢
          simp only [Option.map_some', Option.getD_some, Bool.and_eq_true,
            decide_eq_true_eq, beq_iff_eq] at hch
          obtain ⟨hlen, hfm⟩ := hch
          have h0 : (r.links.length == 0) = false := beq_eq_false_iff_ne.mpr hlen
          simp only [h0, Bool.false_eq_true, if_false]
          rw [bgmd_fold_nil t fuel _ _ hfm]
          simp [Tree.pairMax, pres_pure_bind]
        · rw [Bool.not_eq_true] at hk
          simp only [hk, Bool.false_eq_true, if_false] at hch ⊢
          match hg : t.nodes.get k with
          | none => rw [hg] at hch; simp at hch
          | some nd =>
            rw [hg] at hch
            simp only [Option.map_some', Option.getD_some, Bool.and_eq_true,
              decide_eq_true_eq, beq_iff_eq] at hch
            obtain ⟨hlen, hfm⟩ := hch
            have hidx : t.nodes.index k = .ok nd := by
              simp [HashMap.index, hg]
            rw [hidx, pres_ok_bind]
            have h0 : (nd.links.length == 0) = false := beq_eq_false_iff_ne.mpr hlen
            simp only [h0, Bool.false_eq_true, if_false]
            rw [bgmd_fold_nil t fuel _ _ hfm]
            simp [Tree.pairMax, pres_pure_bind]
  | succ m ih =>
    intro fuel k dia hch hf
    match fuel, hf with
    | fuel + 1, hf =>
      have hf2 : m + 1 ≤ fuel := by omega
      simp only [isChainFromB] at hch
      match hr : t.root with
      | none => simp [lookupB, hr] at hch
      | some r =>
        simp only [lookupB, hr] at hch
        simp only [BinaryTree.get_max_depth]
        rw [hr]
        dsimp only
        by_cases hk : (k == r.pair.key) = true
        · simp only [hk, if_true] at hch ⊢
          simp only [Option.map_some', Option.getD_some, Bool.and_eq_true,
            decide_eq_true_eq] at hch
          obtain ⟨hlen, hrest⟩ := hch
          obtain ⟨c, hc⟩ := List.length_eq_one.mp hlen
          rw [hc] at hrest
          simp only [List.headD] at hrest
          have hrec := ih fuel c dia hrest hf2
          have h0 : (r.links.length == 0) = false := by
            cases hnl : r.links with
            | nil => rw [hnl] at hc; simp at hc
            | cons a as => simp
          simp only [h0, Bool.false_eq_true, if_false]
          rw [bgmd_fold_one t fuel _ _ c hc]
          simp [hrec, Tree.pairMax, pres_ok_bind, pres_pure_bind]
        · rw [Bool.not_eq_true] at hk
          simp only [hk, Bool.false_eq_true, if_false] at hch ⊢
          match hg : t.nodes.get k with
          | none => rw [hg] at hch; simp at hch
          | some nd =>
            rw [hg] at hch
            simp only [Option.map_some', Option.getD_some, Bool.and_eq_true,
              decide_eq_true_eq] at hch
            obtain ⟨hlen, hrest⟩ := hch
            obtain ⟨c, hc⟩ := List.length_eq_one.mp hlen
            rw [hc] at hrest
            simp only [List.headD] at hrest
            have hrec := ih fuel c dia hrest hf2
            have hidx : t.nodes.index k = .ok nd := by
              simp [HashMap.index, hg]
            rw [hidx, pres_ok_bind]
            have h0 : (nd.links.length == 0) = false := by
              cases hnl : nd.links with
              | nil => rw [hnl] at hc; simp at hc
              | cons a as => simp
            simp only [h0, Bool.false_eq_true, if_false]
            rw [bgmd_fold_one t fuel _ _ c hc]
            simp [hrec, Tree.pairMax, pres_ok_bind, pres_pure_bind]

/-- `Tree::diameter` returns `0` whenever the whole tree is one downward
chain from the root. -/
theorem chain_diameter (t : Tree) (r : Node) (m : Nat)
    (hr : t.root = some r) (hch : isChainFrom t m r.pair.key = true)
    (hm : m ≤ t.nodes.len) : Tree.diameter t = .ok 0 := by
  simp only [Tree.diameter]
  rw [hr]
  dsimp only
  rw [chain_gmd t m (t.nodes.len + 2) r.pair.key 0 hch (by omega), pres_ok_bind]

/-- `BinaryTree::diameter` returns `0` whenever the whole tree is one
downward chain from the root. -/
theorem chain_diameterB (t : BinaryTree) (r : Node) (m : Nat)
    (hr : t.root = some r) (hch : isChainFromB t m r.pair.key = true)
    (hm : m ≤ t.nodes.len) : BinaryTree.diameter t = .ok 0 := by
  simp only [BinaryTree.diameter]
  rw [hr]
  dsimp only
  rw [chain_gmdB t m (t.nodes.len + 2) r.pair.key 0 hch (by omega), pres_ok_bind]

/-- Claim C1 states that after any sequence of `insert`/`remove` calls
every node of a `BinaryTree` satisfies the BST ordering invariant.  The
code refutes it: inserting `30, 10, 5, 20, 15` and removing `10` (two
children; in-order successor `15` is not `10`'s right child) completes
with `true`, yet leaves node `20`'s left-child link pointing at `15` while
`15` (which took over `10`'s slot) has `20` as its right child — a cycle —
so the key `15` is reachable through node `15`'s own right-child link and
the ordering invariant fails. -/
theorem c1_remove_breaks_bst_order :
    bC1run = .ok (tC1, true) ∧
    bstOrdered tC1 4 = false ∧
    (lookupB tC1 15).map (fun nd => nd.link 2) = some (some 20) ∧
    (lookupB tC1 20).map (fun nd => nd.link 1) = some (some 15) ∧
    ((reachableKeys tC1 4 (some 20)).contains 15) = true := by decide

/-- Claim C2 states that with `Balanced = true` every completed insert
leaves every node with `|height(left) - height(right)| ≤ 1`.  The code
refutes it: inserting `4, 3, 2, 1` completes (all four calls return
`true`) but produces the left chain `4 → 3 → 2 → 1`; the root's left
subtree has height `3` (in nodes) against an empty right subtree, and even
the code's own `balance_factor` reports `2` at the root — no rotation was
performed because `insert_rec` only ever balances the child of the current
node, never the node itself, and `balance_factor` under-counts heights. -/
theorem c2_avl_invariant_fails :
    bC2run = .ok (tC2, true) ∧
    avlBalanced tC2 10 = false ∧
    subtreeHeight tC2 10 (some 3) = 3 ∧
    (tC2.root.map (fun r => (r.pair.key, r.link 2))) = some (4, none) ∧
    BinaryTree.balance_factor tC2 4 30 = .ok 2 := by decide

/-- Claim C3 states that `remove` of an absent key returns `false` and
never aborts the caller.  The code refutes it on every non-empty tree:
`Tree::remove` indexes `self.nodes[key]` before checking existence and
panics, and `BinaryTree::remove_rec` indexes `self.nodes[key]` likewise;
only the empty-tree case returns `false`. -/
theorem c3_remove_absent_key_panics :
    Tree.existsKey tRoot1 2 = false ∧
    Tree.remove tRoot1 2 20 = .panic ∧
    BinaryTree.existsKey bRoot1 2 = false ∧
    BinaryTree.remove bRoot1 2 20 = .panic ∧
    Tree.remove Tree.new 2 20 = .ok (Tree.new, false) := by decide

/-- Claim C4 states that the rotations perform the standard three-pointer
exchange, preserve BST ordering and update exactly three parent links.
The code refutes it: in the balanced insert `20, 10, 5, 2, 1`, the last
insert triggers the LL case at node `10` (left child `5`, no right child),
and `rotate_right`'s non-root branch reads the *right* child link where
its own comments say left and unwraps `None`, panicking; the rotation also
never updates the displaced grandchild's parent link at all. -/
theorem c4_rotate_right_panics :
    BinaryTree.insertSeq true [20, 10, 5, 2] 40 = .ok (tC4pre, true) ∧
    (lookupB tC4pre 10).map (fun nd => (nd.link 1, nd.link 2)) = some (some 5, none) ∧
    BinaryTree.rotate_right tC4pre 10 = .panic ∧
    BinaryTree.insertSeq true [20, 10, 5, 2, 1] 40 = .panic := by decide

/-- Claim C5 states that `subtree(k)` returns a tree whose root is the
node `k` *with its parent link set to `None`*.  The code refutes the
parentless part: on the tree with root `1` and child `2`, `subtree(2)`
copies node `2`'s record verbatim, so the new root keeps `links[0] =
Some(1)` — a dangling parent link into the original tree (the binary
`subtree` clears it; the generic one forgot).  The panic on an absent key
does hold. -/
theorem c5_subtree_root_keeps_parent_link :
    Tree.subtree tPair 2 20 = .ok { nodes := ⟨[]⟩, root := some ⟨⟨2, 2⟩, [some 1]⟩ } ∧
    Tree.subtree tPair 3 20 = .panic := by decide

/-- Claim C6 states that `insert_at(Some(p), ...)` with a parent key that
resolves to no node fails silently as a no-op.  The code refutes it: on
the non-empty tree with root `1`, `insert_at(Some(2), (3, 3))` evaluates
`&mut self.nodes[2]`, whose `IndexMut` panics on the missing key, despite
the function's own documentation promising `false` for an invalid
position. -/
theorem c6_insert_at_missing_parent_panics :
    tRoot1.root.isSome = true ∧
    Tree.existsKey tRoot1 2 = false ∧
    Tree.existsKey tRoot1 3 = false ∧
    Tree.insert_at tRoot1 (some 2) ⟨3, 3⟩ = .panic := by decide

/-- Claim C7 (counterexample): on the 3-node generic chain `0 → 1 → 2`
(longest path 2 edges) `diameter()` returns `0`, not `n - 1 = 2`. -/
theorem c7_chain_counterexample :
    Tree.len tChain3 = 3 ∧
    Tree.diameter tChain3 = .ok 0 ∧
    Tree.diameter tChain3 ≠ .ok 2 := by decide

/-- Claim C7 (amended): `diameter()` returns `0` for an empty tree, but it
is not the longest path between any two nodes: its accumulator only takes
sums of *pairs* of child depths, and each node's write-back discards the
updates made below it, so on every `GenericTree` or `BinaryTree` that
hangs as one downward chain from the root (where the true diameter is the
chain length), `diameter()` returns `0`. -/
theorem c7_amended_diameter_zero_on_chains :
    (∀ (t : Tree) (r : Node) (m : Nat), t.root = some r →
      isChainFrom t m r.pair.key = true → m ≤ t.nodes.len →
      Tree.diameter t = .ok 0) ∧
    (∀ (t : BinaryTree) (r : Node) (m : Nat), t.root = some r →
      isChainFromB t m r.pair.key = true → m ≤ t.nodes.len →
      BinaryTree.diameter t = .ok 0) ∧
    Tree.diameter Tree.new = .ok 0 ∧
    (∀ bl : Bool, BinaryTree.diameter (BinaryTree.new bl) = .ok 0) :=
  ⟨fun t r m hr hch hm => chain_diameter t r m hr hch hm,
   fun t r m hr hch hm => chain_diameterB t r m hr hch hm,
   rfl, fun _ => rfl⟩

/-- Witness for the amended C7 theorem: its chain hypotheses hold at the
concrete generic chain `0 → 1 → 2` and binary chain `3 → 2 → 1`, where it
yields `diameter() = 0`. -/
theorem c7_amended_diameter_zero_on_chains_witness :
    (tChain3.root = some ⟨⟨0, 0⟩, [none, some 1]⟩ ∧
      isChainFrom tChain3 2 ((⟨⟨0, 0⟩, [none, some 1]⟩ : Node).pair.key) = true ∧
      2 ≤ tChain3.nodes.len ∧
      Tree.diameter tChain3 = .ok 0) ∧
    (bChain3.root = some ⟨⟨3, 3⟩, [none, some 2, none]⟩ ∧
      isChainFromB bChain3 2 ((⟨⟨3, 3⟩, [none, some 2, none]⟩ : Node).pair.key) = true ∧
      2 ≤ bChain3.nodes.len ∧
      BinaryTree.diameter bChain3 = .ok 0) :=
  ⟨⟨by decide, by decide, by decide,
    c7_amended_diameter_zero_on_chains.1 tChain3 ⟨⟨0, 0⟩, [none, some 1]⟩ 2
      (by decide) (by decide) (by decide)⟩,
   ⟨by decide, by decide, by decide,
    c7_amended_diameter_zero_on_chains.2.1 bChain3 ⟨⟨3, 3⟩, [none, some 2, none]⟩ 2
      (by decide) (by decide) (by decide)⟩⟩

/-- Claim C8 (counterexample): the boundary traversal buffer does not have
`n` elements for every `n`-node binary tree: on the 6-node tree `tC8`
(root `8`; `4` and `12`; `2`, `6`; `5`) it holds 5 values — the interior
node `6` (neither on the followed left spine, nor a leaf, nor on the right
spine) is never emitted. -/
theorem c8_boundary_counterexample :
    BinaryTree.insertSeq false [8, 4, 12, 2, 6, 5] 30 = .ok (tC8, true) ∧
    BinaryTree.len tC8 = 6 ∧
    BinaryTreeTraverser.boundary tC8 20 = .ok [8, 4, 2, 5, 12] ∧
    ((BinaryTreeTraverser.boundary tC8 20).getD []).length = 5 := by decide

/-- Claim C8 (amended): on the same 6-node tree every other supported
mode's buffer has exactly 6 elements with each node's value exactly once
(inorder, preorder, postorder, level-order and diagonal), while the
boundary buffer holds only the root, the non-leaf spine, and the leaves —
5 values, omitting interior node `6`. -/
theorem c8_amended_buffers :
    BinaryTreeTraverser.inorder tC8 20 = .ok [2, 4, 5, 6, 8, 12] ∧
    BinaryTreeTraverser.preorder tC8 20 = .ok [8, 4, 2, 6, 5, 12] ∧
    BinaryTreeTraverser.postorder tC8 20 = .ok [2, 5, 6, 4, 12, 8] ∧
    BinaryTreeTraverser.level_order tC8 20 = .ok [8, 4, 12, 2, 6, 5] ∧
    BinaryTreeTraverser.diagonal tC8 20 = .ok [8, 4, 6, 12, 2, 5] ∧
    BinaryTreeTraverser.boundary tC8 20 = .ok [8, 4, 2, 5, 12] := by decide

/-- Claim C9 states the diagonal traversal groups by a parent-inherited
diagonal index (root 0, right child same, left child +1) and flattens the
groups in increasing index order.  The code refutes it: tags come from
`level_of` (the node's depth; left child depth+1, right child depth), and
the groups are flattened in `Map` insertion order, not sorted.  On the
tree root `1`, left `0`, right `3`, `3`'s left `2`, the claim's grouping
is index 0 = `[1, 3]`, index 1 = `[0, 2]`, i.e. buffer `[1, 3, 0, 2]` —
the code produces `[1, 0, 3, 2]` (depth-tag buckets 0, 2, 1, 3 in
first-encounter order). -/
theorem c9_diagonal_uses_depth_tags :
    BinaryTree.insertSeq false [1, 0, 3, 2] 30 = .ok (tC9, true) ∧
    BinaryTreeTraverser.diagonal tC9 20 = .ok [1, 0, 3, 2] ∧
    BinaryTreeTraverser.diagonal tC9 20 ≠ .ok [1, 3, 0, 2] := by decide

/-- Claim C10: `len()` is literally `nodes.len() + 1` for both tree types,
so an empty tree (root `None`, `is_empty()` true) reports length `1`, not
`0` — `len()` differs from the node count exactly there. -/
theorem c10_len_is_nodes_plus_one :
    (∀ t : Tree, Tree.len t = t.nodes.len + 1) ∧
    (∀ b : BinaryTree, BinaryTree.len b = b.nodes.len + 1) ∧
    Tree.len Tree.new = 1 ∧
    Tree.is_empty Tree.new = true ∧
    (∀ bl : Bool, BinaryTree.len (BinaryTree.new bl) = 1 ∧
      BinaryTree.is_empty (BinaryTree.new bl) = true) :=
  ⟨fun _ => rfl, fun _ => rfl, rfl, rfl, fun _ => ⟨rfl, rfl⟩⟩

end Structures
